import Mathlib

/-!
Verification of the table state codec of ygkn/typed-table-demo.

The repository keeps a data table's interaction state (keyword search, sort,
per-column filters, visible columns, page) in a flat string key-value query
map.  This file gives a shallow embedding of the decoder
(`parseTableState` in src/features/table/useTableState.ts and its inlined
copies), the action layer (`useTableActions` in the per-column-key scheme,
`actions` in the single-file variant, and the `createTable.tsx` variant),
and the schema-driven filter codec (`createFilterEncoderDecoder` in
src/features/table/filterUtils.ts), together with theorems settling the
specification claims about them.

Conventions of the embedding:
* A raw query map (`URLSearchParams` restricted to `get`/`set`/`delete`)
  is a function `String → Option String`; `qset` and `qdelete` mirror
  `URLSearchParams.set` / `URLSearchParams.delete`.
* JavaScript `null` becomes `none`; a decoder that may throw returns
  `Except Unit`; `NaN` produced by `parseInt` becomes `none`.
* Actions commit a whole replacement map through the navigation adapter
  (`router.push`); an action that returns without committing is `.noop`.
  The `.threw` outcome exists so that the specification's fail-fast claim
  about the filter setter is statable; the source never throws there.
-/

/-- A raw query map: the flat string-to-string representation.  `none`
models an absent key (JS `URLSearchParams.get` returning `null`). -/
def RawMap : Type := String → Option String

/-- `URLSearchParams.set`: overwrite the value stored under a key. -/
def qset (m : RawMap) (k v : String) : RawMap :=
  fun k2 => if k2 = k then some v else m k2

/-- `URLSearchParams.delete`: remove a key. -/
def qdelete (m : RawMap) (k : String) : RawMap :=
  fun k2 => if k2 = k then none else m k2

/-- The empty query map. -/
def emptyMap : RawMap := fun _ => none

/-- Build a concrete raw query map from an association list (first
binding wins, matching `URLSearchParams.get`). -/
def mapOf (l : List (String × String)) : RawMap := fun k => l.lookup k

/-- Sort direction; the wire values are the strings "asc" and "desc". -/
inductive SortOrder where
  | asc
  | desc
deriving DecidableEq

/-- Wire encoding of a sort direction. -/
def SortOrder.encode : SortOrder → String
  | .asc => "asc"
  | .desc => "desc"

/-- A column filter definition (`ColumnFilterDefinition` in types.ts),
restricted to the codec part; the render hooks are presentation-only and
carry no behavior.  `decodeFromUrl` may throw (`Except.error`) or return
`null` (`Except.ok none`), exactly as the TS `decodeFromUrl` may. -/
structure FilterDef (α : Type) where
  encodeForUrl : α → String
  decodeFromUrl : String → Except Unit (Option α)
  initial : Option α

/-- A column descriptor (`ColumnDefinition` in types.ts): key, optional
filter codec, sortable flag, initial-visibility flag.  The
`createTable.tsx` variant nests the flag as `visibility.initialVisibility`;
it is flattened here since the wrapper holds nothing else. -/
structure ColumnDef (α : Type) where
  key : String
  sortable : Bool
  initialVisibility : Bool
  filter : Option (FilterDef α)

/-- The six canonical query-key names (`getQueryKeys` in
parseTableState.ts).  The TS field `filterPrefix` is named `filterPfx`
here. -/
structure QueryKeys where
  keywordSearch : String
  sortBy : String
  sortOrder : String
  columnVisibility : String
  page : String
  filterPfx : String

/-- `getQueryKeys` from parseTableState.ts: derive the namespaced keys
from an optional namespace token (default "table"). -/
def getQueryKeys (pfx : Option String) : QueryKeys :=
  let p := pfx.getD "table"
  { keywordSearch := p ++ "_keyword"
    sortBy := p ++ "_sort_by"
    sortOrder := p ++ "_sort_order"
    columnVisibility := p ++ "_columns"
    page := p ++ "_page"
    filterPfx := p ++ "_filter_" }

/-- `columnDefinitions.some((col) => col.key === k)`: k names a defined
column. -/
def isDefinedKey {α : Type} (cols : List (ColumnDef α)) (k : String) : Bool :=
  cols.any (fun col => col.key == k)

/-- `columnDefinitions.some((col) => col.key === k && col.sortable)`. -/
def isSortableKey {α : Type} (cols : List (ColumnDef α)) (k : String) : Bool :=
  cols.any (fun col => col.key == k && col.sortable)

/-- The registry's default-visible columns, in registry order
(`columnDefinitions.filter((col) => col.initialVisibility).map((col) =>
col.key)`). -/
def defaultVisibleKeys {α : Type} (cols : List (ColumnDef α)) : List String :=
  (cols.filter (fun col => col.initialVisibility)).map (fun col => col.key)

/-- Sort-by decoding from `parseTableState`: keep the raw value only when
it is truthy (non-null, nonempty) and names a defined sortable column. -/
def parseSortBy {α : Type} (param : Option String) (cols : List (ColumnDef α)) :
    Option String :=
  match param with
  | none => none
  | some s => if (s != "") && isSortableKey cols s then some s else none

/-- Sort-order decoding from `parseTableState`: keep the raw value only
when it is exactly "asc" or "desc". -/
def parseSortOrder (param : Option String) : Option SortOrder :=
  if param = some "asc" then some .asc
  else if param = some "desc" then some .desc
  else none

/-- Helper for `splitOnComma`: the accumulator holds the current token's
characters in reverse. -/
def splitOnCommaAux : List Char → List Char → List String
  | [], acc => [String.mk acc.reverse]
  | c :: rest, acc =>
    if c = ',' then String.mk acc.reverse :: splitOnCommaAux rest []
    else splitOnCommaAux rest (c :: acc)

/-- JS `s.split(",")`: comma-separated tokens, with `"".split(",")`
returning `[""]`. -/
def splitOnComma (s : String) : List String :=
  splitOnCommaAux s.toList []

/-- Column-visibility decoding (`parseColumnVisibility` in
useTableState.ts): split the raw value (absent treated as "") on ",",
retain tokens naming a defined column, and fall back to the registry
defaults when nothing is retained. -/
def parseColumnVisibility {α : Type} (param : Option String)
    (cols : List (ColumnDef α)) : List String :=
  let fromParam := (splitOnComma (param.getD "")).filter (isDefinedKey cols)
  if fromParam.length > 0 then fromParam else defaultVisibleKeys cols

/-- Decimal value of a digit list (most significant first). -/
def digitsVal (cs : List Char) : Nat :=
  cs.foldl (fun acc c => acc * 10 + (c.toNat - 48)) 0

/-- Hexadecimal digit test, as in JS `parseInt` with the 0x marker. -/
def isHexDigitJS (c : Char) : Bool :=
  c.isDigit || (97 ≤ c.toNat && c.toNat ≤ 102) || (65 ≤ c.toNat && c.toNat ≤ 70)

/-- Hexadecimal value of a hex-digit list. -/
def hexVal (cs : List Char) : Nat :=
  cs.foldl
    (fun acc c =>
      acc * 16 +
        (if c.isDigit then c.toNat - 48
         else if 97 ≤ c.toNat then c.toNat - 87
         else c.toNat - 55))
    0

/-- The digit-consuming core of JS `parseInt` with no radix argument:
radix 16 after a "0x"/"0X" marker, radix 10 otherwise; the longest valid
prefix is consumed and `NaN` (here `none`) results when it is empty. -/
def parseIntDigits (cs : List Char) : Option Nat :=
  match cs with
  | '0' :: 'x' :: rest =>
    let hs := rest.takeWhile isHexDigitJS
    if hs.isEmpty then none else some (hexVal hs)
  | '0' :: 'X' :: rest =>
    let hs := rest.takeWhile isHexDigitJS
    if hs.isEmpty then none else some (hexVal hs)
  | _ =>
    let ds := cs.takeWhile Char.isDigit
    if ds.isEmpty then none else some (digitsVal ds)

/-- JS `parseInt(s)`: skip leading whitespace, read an optional sign, then
consume digits; `none` models `NaN`.  (Exotic Unicode whitespace is not
modelled; the repository only ever passes query-string values.) -/
def parseIntJS (s : String) : Option Int :=
  let cs := s.toList.dropWhile (fun c => c = ' ' || c = '\t' || c = '\n' || c = '\r')
  match cs with
  | '-' :: rest => (parseIntDigits rest).map (fun n => -(n : Int))
  | '+' :: rest => (parseIntDigits rest).map (fun n => (n : Int))
  | rest => (parseIntDigits rest).map (fun n => (n : Int))

/-- The unanchored regex test `/[0-9]+/.test(s)`: true exactly when `s`
contains at least one decimal digit. -/
def hasDigitJS (s : String) : Bool :=
  s.toList.any Char.isDigit

/-- Pagination decoding from `parseTableState` (useTableState.ts lines
93-96): `/[0-9]+/.test(pageParam ?? "") ? parseInt(pageParam ?? "") : 1`.
`none` models a `NaN` result of `parseInt`. -/
def parsePagination (pageParam : Option String) : Option Int :=
  if hasDigitJS (pageParam.getD "") then parseIntJS (pageParam.getD "")
  else some 1

/-- One column's contribution to the decoded filter mapping
(`parseFilters` in useTableState.ts): columns without a filter codec are
skipped; an absent namespaced value, a decode returning `null`, and a
decode that throws (caught and logged in the source) all contribute
nothing. -/
def filterEntryFor {α : Type} (m : RawMap) (fpfx : String)
    (col : ColumnDef α) : Option (String × α) :=
  match col.filter with
  | none => none
  | some fd =>
    match m (fpfx ++ col.key) with
    | none => none
    | some enc =>
      match fd.decodeFromUrl enc with
      | .ok (some v) => some (col.key, v)
      | .ok none => none
      | .error _ => none

/-- Filter decoding (`parseFilters` in useTableState.ts): walk the
registry in order and collect the successfully decoded entries.  The
object assignment `filter[colKey] = filterValue` becomes list insertion in
registry order; the outer try/catch of the source is unreachable because
the inner catch already absorbs every decode exception. -/
def parseFilters {α : Type} (m : RawMap) (fpfx : String)
    (cols : List (ColumnDef α)) : List (String × α) :=
  cols.filterMap (filterEntryFor m fpfx)

/-- The decoded sort state of a raw query map (the `sort` field computed
by `parseTableState`). -/
def decodedSort {α : Type} (m : RawMap) (ks : QueryKeys)
    (cols : List (ColumnDef α)) : Option String × Option SortOrder :=
  (parseSortBy (m ks.sortBy) cols, parseSortOrder (m ks.sortOrder))

/-- Outcome of one action call: either a whole replacement map is
committed through the navigation adapter, or the action returns without
committing, or it throws.  (`.threw` makes the fail-fast claim about the
filter setter statable; no embedded action produces it, because no source
action throws.) -/
inductive ActionResult where
  | commit (m : RawMap)
  | noop
  | threw

/-- The committed value stored under `k`, when the action committed. -/
def committedValue (r : ActionResult) (k : String) : Option (Option String) :=
  match r with
  | .commit m => some (m k)
  | .noop => none
  | .threw => none

/-- `updateQueryParams` from useQueryParams.ts: apply a batch of per-key
updates (a `null` value deletes the key, any other value sets it), then
optionally delete the page key, and commit the result. -/
def updateQueryParams (m : RawMap) (ks : QueryKeys)
    (updates : List (String × Option String)) (resetPage : Bool) : RawMap :=
  let m2 := updates.foldl
    (fun acc kv =>
      match kv.2 with
      | none => qdelete acc kv.1
      | some v => qset acc kv.1 v)
    m
  if resetPage then qdelete m2 ks.page else m2

/-- `useTableActions.setSort` (per-column-key scheme): pass both sort keys
to `updateQueryParams` in one batch; each key is set or deleted according
to its own argument. -/
def setSortTA (m : RawMap) (ks : QueryKeys) (sb : Option String)
    (so : Option SortOrder) : RawMap :=
  updateQueryParams m ks
    [(ks.sortBy, sb), (ks.sortOrder, so.map SortOrder.encode)] false

/-- `actions.setSort` from the single-file variant: when both arguments
are truthy, set both keys; otherwise delete both keys. -/
def setSortP1 (m : RawMap) (ks : QueryKeys) (sb : Option String)
    (so : Option SortOrder) : RawMap :=
  match sb, so with
  | some s, some o =>
    if s = "" then qdelete (qdelete m ks.sortBy) ks.sortOrder
    else qset (qset m ks.sortBy s) ks.sortOrder o.encode
  | _, _ => qdelete (qdelete m ks.sortBy) ks.sortOrder

/-- `useTableActions.toggleSort`: read the decoded sort state and cycle it
for column `c` through `setSortTA`. -/
def toggleSortTA {α : Type} (m : RawMap) (ks : QueryKeys)
    (cols : List (ColumnDef α)) (c : String) : RawMap :=
  let st := decodedSort m ks cols
  if st.1 = some c then
    if st.2 = some .asc then setSortTA m ks (some c) (some .desc)
    else setSortTA m ks none none
  else setSortTA m ks (some c) (some .asc)

/-- The updated visible-column list built by
`useTableActions.setColumnVisibility`: append the key when showing, filter
it out when hiding; the base is the decoded visibility of the current
map. -/
def newVisibleListTA {α : Type} (m : RawMap) (ks : QueryKeys)
    (cols : List (ColumnDef α)) (c : String) (visible : Bool) : List String :=
  let vis := parseColumnVisibility (m ks.columnVisibility) cols
  if visible then vis ++ [c] else vis.filter (fun k => k != c)

/-- `useTableActions.setColumnVisibility`: return without committing when
the updated list is empty, else commit the comma-join of the updated list
(in its own order, with no registry-order normalization). -/
def setColumnVisibilityTA {α : Type} (m : RawMap) (ks : QueryKeys)
    (cols : List (ColumnDef α)) (c : String) (visible : Bool) : ActionResult :=
  let newVis := newVisibleListTA m ks cols c visible
  if newVis.length = 0 then .noop
  else .commit (updateQueryParams m ks
    [(ks.columnVisibility, some (String.intercalate "," newVis))] false)

/-- `useTableActions.setFilter`: a `null` value deletes the column's
namespaced filter key (resetting the page); a non-null value is encoded
and set only when the column is found and carries a filter codec —
otherwise the call returns without doing anything. -/
def setFilterTA {α : Type} (cols : List (ColumnDef α)) (m : RawMap)
    (ks : QueryKeys) (c : String) (v : Option α) : ActionResult :=
  match v with
  | none => .commit (updateQueryParams m ks [(ks.filterPfx ++ c, none)] true)
  | some fv =>
    match cols.find? (fun col => col.key == c) with
    | none => .noop
    | some col =>
      match col.filter with
      | none => .noop
      | some fd =>
        .commit (updateQueryParams m ks
          [(ks.filterPfx ++ c, some (fd.encodeForUrl fv))] true)

/-- The unprefixed key of the columns field in createTable.tsx. -/
def ctColumnsKey : String := "columns"

/-- The unprefixed key of the page field in createTable.tsx. -/
def ctPageKey : String := "page"

/-- `getVisibleColumnsFromQueryString` in createTable.tsx: an absent
value, like a value whose valid tokens are exhausted, falls back to the
registry defaults. -/
def getVisibleColumnsCT {α : Type} (m : RawMap) (cols : List (ColumnDef α)) :
    List String :=
  match m ctColumnsKey with
  | none => defaultVisibleKeys cols
  | some s =>
    let vs := (splitOnComma s).filter (isDefinedKey cols)
    if vs.isEmpty then defaultVisibleKeys cols else vs

/-- `^[1-9][0-9]*$`: the page-value pattern of createTable.tsx. -/
def isPositiveIntString (s : String) : Bool :=
  match s.toList with
  | [] => false
  | c :: rest => (49 ≤ c.toNat && c.toNat ≤ 57) && rest.all Char.isDigit

/-- `getPageFromQueryString` in createTable.tsx (lines 508-529), for a
table with pagination configured: anchored digit pattern, else 1. -/
def getPageFromQueryStringCT (m : RawMap) : Int :=
  let p := (m ctPageKey).getD ""
  if isPositiveIntString p then ((digitsVal p.toList : Nat) : Int) else 1

/-- Serialize a key set in registry order: walk the registry and keep the
keys belonging to the set (`tableDefinition.columns.map(...).filter(...)
.join(",")` in createTable.tsx). -/
def serializeInRegistryOrder {α : Type} (cols : List (ColumnDef α))
    (keys : List String) : String :=
  String.intercalate "," ((cols.map (fun col => col.key)).filter
    (fun k => keys.contains k))

/-- `setColumnVisibility` in createTable.tsx (lines 670-739): membership
in the updated list models the `Set` the source builds.  Showing a column
deletes the columns key outright when every registry column becomes
visible; hiding is refused when nothing would remain; every committed
columns value is rebuilt in registry order. -/
def setColumnVisibilityCT {α : Type} (m : RawMap) (cols : List (ColumnDef α))
    (c : String) (visible : Bool) : ActionResult :=
  let vis := getVisibleColumnsCT m cols
  if visible then
    let s := vis ++ [c]
    if cols.all (fun col => s.contains col.key) then
      .commit (qdelete m ctColumnsKey)
    else
      .commit (qset m ctColumnsKey (serializeInRegistryOrder cols s))
  else
    let s := vis.filter (fun k => k != c)
    if s.isEmpty then .noop
    else .commit (qset m ctColumnsKey (serializeInRegistryOrder cols s))

/-- An external JSON text codec (`JSON.stringify` / `JSON.parse`); `parse`
throwing on malformed text is `Except.error`.  The codec itself lives in
the JS runtime, outside the repository; theorems assume its round-trip
contract only pointwise, at the values they mention. -/
structure JsonCodec (β : Type) where
  stringify : β → String
  parse : String → Except Unit β

/-- A structural validator (`v.parse` of a valibot schema): it throws, or
returns the (possibly transformed) validated value. -/
structure ValSchema (β : Type) where
  vparse : β → Except Unit β

/-- `createFilterEncoderDecoder` from filterUtils.ts: encode is
validate-then-stringify (fail-fast, propagating the validation error);
decode is parse-then-validate wrapped in try/catch, so it is total and
returns `none` on either failure. -/
def createFilterEncoderDecoder {β : Type} (J : JsonCodec β) (sc : ValSchema β) :
    (β → Except Unit String) × (String → Option β) :=
  ( fun value => (sc.vparse value).map J.stringify
  , fun encoded =>
      match (J.parse encoded).bind sc.vparse with
      | .ok v => some v
      | .error _ => none )


/-! ### Concrete fixtures -/

/-- A trivial string filter codec (like the name filter in
parseTableState.test.ts: decode returns the raw value, never null, never
throws). -/
def fdString : FilterDef String :=
  { encodeForUrl := fun s => s
    decodeFromUrl := fun s => .ok (some s)
    initial := none }

/-- The id column of the test registry: sortable, visible, no filter. -/
def colId : ColumnDef String :=
  { key := "id", sortable := true, initialVisibility := true, filter := none }

/-- The name column of the test registry: sortable, visible, filtered. -/
def colName : ColumnDef String :=
  { key := "name", sortable := true, initialVisibility := true
    filter := some fdString }

/-- The age column of the test registry: not sortable, hidden by default,
filtered. -/
def colAge : ColumnDef String :=
  { key := "age", sortable := false, initialVisibility := false
    filter := some fdString }

/-- The registry of parseTableState.test.ts (id, name, age). -/
def cols3 : List (ColumnDef String) := [colId, colName, colAge]

/-- A registry whose single column is hidden by default. -/
def colsAllHidden : List (ColumnDef String) :=
  [{ key := "a", sortable := false, initialVisibility := false, filter := none }]

/-- A registry whose single column is visible by default. -/
def colsSingle : List (ColumnDef String) :=
  [{ key := "a", sortable := false, initialVisibility := true, filter := none }]

/-- The default query keys (namespace token "table"). -/
def ksDefault : QueryKeys := getQueryKeys none

/-! ### C1 -/

/-- C1: the claim says the decoded pagination equals the parsed integer
when the page value consists of decimal digits, is 1 otherwise, and is
always ≥ 1.  The code (`parseTableState`, useTableState.ts lines 93-96)
tests the unanchored `/[0-9]+/` and then applies `parseInt`, so the
all-digit value "0" decodes to 0 and the value "x5" (which contains a
digit but starts with none) decodes to NaN — the decoded pagination is
not always ≥ 1.  The sibling decoder `getPageFromQueryString` in
createTable.tsx anchors the pattern (`^[1-9][0-9]*$`) and maps "0" to 1,
matching the claimed invariant. -/
theorem C1_pagination_bug_eval :
    parsePagination (some "0") = some 0 ∧
    parsePagination (some "x5") = none ∧
    parsePagination (some "invalid_page") = some 1 ∧
    parsePagination (some "5") = some 5 ∧
    parsePagination none = some 1 ∧
    getPageFromQueryStringCT (qset emptyMap ctPageKey "0") = 1 ∧
    ¬ (∀ (p : Option String) (n : Int), parsePagination p = some n → 1 ≤ n) := by
  refine ⟨by decide, by decide, by decide, by decide, by decide, by decide, ?_⟩
  intro h
  have h0 := h (some "0") 0 (by decide)
  omega

/-! ### C2 -/

/-- C2 counterexample: `useTableActions.setSort` feeds both keys to
`updateQueryParams`, which handles each independently; the call
`setSort("name", null)` on the empty map writes the sortBy key while the
sortOrder key stays absent — a map containing exactly one of the two sort
keys, contradicting the claim that a call with a null argument deletes
both keys. -/
theorem C2_partial_sort_write_counterexample :
    setSortTA emptyMap ksDefault (some "name") none ksDefault.sortBy
      = some "name" ∧
    setSortTA emptyMap ksDefault (some "name") none ksDefault.sortOrder
      = none := by
  constructor <;> decide

/-- Helper: what `setSortTA` stores under the sortBy key is exactly its
first argument (the second batch entry touches a different key). -/
theorem setSortTA_sortBy (m : RawMap) (ks : QueryKeys) (sb : Option String)
    (so : Option SortOrder) (hks : ks.sortBy ≠ ks.sortOrder) :
    setSortTA m ks sb so ks.sortBy = sb := by
  cases sb <;> cases so <;>
    simp [setSortTA, updateQueryParams, qset, qdelete, hks]

/-- Helper: what `setSortTA` stores under the sortOrder key is exactly
the encoding of its second argument. -/
theorem setSortTA_sortOrder (m : RawMap) (ks : QueryKeys) (sb : Option String)
    (so : Option SortOrder) :
    setSortTA m ks sb so ks.sortOrder = so.map SortOrder.encode := by
  cases sb <;> cases so <;>
    simp [setSortTA, updateQueryParams, qset, qdelete]

/-- C2 amended: with both arguments non-null (and the column key truthy)
both variants write both sort keys.  With a null argument, the
single-file variant (`actions.setSort`) deletes both keys, exactly as the
claim states; `useTableActions.setSort` instead applies each argument
independently — the stored sortBy value is always its first argument and
the stored sortOrder value the encoding of its second — so a call with
exactly one null argument leaves exactly one sort key in the map. -/
theorem C2_setSort_amended (m : RawMap) (ks : QueryKeys) (sb : Option String)
    (so : Option SortOrder) (hks : ks.sortBy ≠ ks.sortOrder) :
    (∀ s o, sb = some s → s ≠ "" → so = some o →
      setSortP1 m ks sb so ks.sortBy = some s ∧
      setSortP1 m ks sb so ks.sortOrder = some o.encode) ∧
    ((sb = none ∨ sb = some "" ∨ so = none) →
      setSortP1 m ks sb so ks.sortBy = none ∧
      setSortP1 m ks sb so ks.sortOrder = none) ∧
    (setSortTA m ks sb so ks.sortBy = sb ∧
      setSortTA m ks sb so ks.sortOrder = so.map SortOrder.encode) := by
  refine ⟨?_, ?_, setSortTA_sortBy m ks sb so hks,
    setSortTA_sortOrder m ks sb so⟩
  · rintro s o rfl hs rfl
    simp [setSortP1, hs, qset, qdelete, hks]
  · intro h
    rcases h with rfl | rfl | rfl
    · cases so <;> simp [setSortP1, qdelete, hks]
    · cases so <;> simp [setSortP1, qdelete, hks]
    · cases sb <;> simp [setSortP1, qdelete, hks]

/-- C2 amended witness: concrete instances of both behaviors. -/
theorem C2_setSort_amended_witness :
    (setSortP1 emptyMap ksDefault (some "name") none ksDefault.sortBy = none ∧
      setSortP1 emptyMap ksDefault (some "name") none ksDefault.sortOrder
        = none) ∧
    setSortTA emptyMap ksDefault (some "name") (some .asc) ksDefault.sortBy
      = some "name" := by
  refine ⟨(C2_setSort_amended emptyMap ksDefault (some "name") none
    (by decide)).2.1 (Or.inr (Or.inr rfl)),
    (C2_setSort_amended emptyMap ksDefault (some "name") (some .asc)
      (by decide)).2.2.1⟩

/-! ### C3 -/

/-- A current map whose columns value lists name before id (caller
order). -/
def mC3 : RawMap := mapOf [(ksDefault.columnVisibility, "name,id")]

/-- C3 counterexample: with the current columns value "name,id", showing
the age column through `useTableActions.setColumnVisibility` commits
"name,id,age" — the current decoded order with the new key appended — and
not the registry-order serialization "id,name,age" of the same set.  The
claim that every commit is registry-ordered fails for this variant. -/
theorem C3_insertion_order_counterexample :
    committedValue (setColumnVisibilityTA mC3 ksDefault cols3 "age" true)
      ksDefault.columnVisibility = some (some "name,id,age") ∧
    serializeInRegistryOrder cols3 ["name", "id", "age"] = "id,name,age" ∧
    ("name,id,age" : String) ≠ "id,name,age" := by
  refine ⟨by decide, by decide, by decide⟩

/-- C3 amended: the registry-order guarantee holds for the
`createTable.tsx` variant: whenever its `setColumnVisibility` commits a
map that carries a columns value, that value is the new visible set
(append on show, filter on hide) serialized in registry order.
`useTableActions.setColumnVisibility` instead commits the updated list in
its own insertion order, as the counterexample shows. -/
theorem C3_registry_order_ct {α : Type} (m : RawMap)
    (cols : List (ColumnDef α)) (c : String) (visible : Bool) (m2 : RawMap)
    (s : String)
    (hc : setColumnVisibilityCT m cols c visible = .commit m2)
    (hs : m2 ctColumnsKey = some s) :
    s = serializeInRegistryOrder cols
      (if visible then getVisibleColumnsCT m cols ++ [c]
       else (getVisibleColumnsCT m cols).filter (fun k => k != c)) := by
  unfold setColumnVisibilityCT at hc
  cases visible with
  | true =>
    simp only [if_true] at hc
    split at hc
    · cases hc
      simp [qdelete] at hs
    · cases hc
      simp only [if_true]
      simpa [qset] using hs.symm
  | false =>
    simp only [if_false, Bool.false_eq_true] at hc
    split at hc
    · cases hc
    · cases hc
      simp only [if_false, Bool.false_eq_true]
      simpa [qset] using hs.symm

/-- C3 amended witness: hiding the name column with current columns value
"name,id" commits "id", the registry-order serialization of the remaining
set. -/
theorem C3_registry_order_ct_witness :
    ("id" : String) = serializeInRegistryOrder cols3
      ((getVisibleColumnsCT (mapOf [(ctColumnsKey, "name,id")]) cols3).filter
        (fun k => k != "name")) :=
  C3_registry_order_ct (mapOf [(ctColumnsKey, "name,id")]) cols3 "name" false
    (qset (mapOf [(ctColumnsKey, "name,id")]) ctColumnsKey "id") "id"
    rfl (by decide)

/-! ### C4 -/

/-- C4 counterexample: calling `useTableActions.setFilter` with a
non-null value for the id column — whose filter definition is null —
reaches the `if (columnDef?.filter)` guard and falls through: the action
returns without committing and without raising anything, contradicting
the claim that it fails fast with an error at call time. -/
theorem C4_silent_noop_counterexample :
    setFilterTA cols3 emptyMap ksDefault "id" (some "x") = ActionResult.noop ∧
    setFilterTA cols3 emptyMap ksDefault "id" (some "x")
      ≠ ActionResult.threw := by
  have h : setFilterTA cols3 emptyMap ksDefault "id" (some "x")
      = ActionResult.noop := rfl
  refine ⟨h, ?_⟩
  intro hT
  rw [h] at hT
  exact ActionResult.noConfusion hT

/-- C4 amended: calling the filter setter with a non-null value for a
column whose filter definition is null (or which is not in the registry
at all) is silently ignored at runtime: no update is committed and no
error is raised.  (The misuse is prevented statically by the
`FilterableColumnKeys` bound on the argument type, not by a runtime
check.) -/
theorem C4_silent_noop {α : Type} (cols : List (ColumnDef α)) (m : RawMap)
    (ks : QueryKeys) (c : String) (v : Option α) (hv : v ≠ none)
    (hfil : ((cols.find? (fun col => col.key == c)).bind
      (fun col => col.filter)).isNone) :
    setFilterTA cols m ks c v = ActionResult.noop := by
  match v with
  | none => exact absurd rfl hv
  | some fv =>
    have heq : setFilterTA cols m ks c (some fv)
        = match cols.find? (fun col => col.key == c) with
          | none => ActionResult.noop
          | some col =>
            match col.filter with
            | none => ActionResult.noop
            | some fd => ActionResult.commit (updateQueryParams m ks
                [(ks.filterPfx ++ c, some (fd.encodeForUrl fv))] true) := rfl
    rw [heq]
    split
    · rfl
    · rename_i col hfind
      rw [hfind, Option.some_bind] at hfil
      split
      · rfl
      · rename_i fd hfd
        rw [hfd] at hfil
        simp at hfil

/-- C4 amended witness. -/
theorem C4_silent_noop_witness :
    setFilterTA cols3 (mapOf [(ksDefault.page, "3")]) ksDefault "id"
      (some "x") = ActionResult.noop :=
  C4_silent_noop cols3 (mapOf [(ksDefault.page, "3")]) ksDefault "id"
    (some "x") (by decide) rfl

/-! ### C5 -/

/-- C5 counterexample: for a registry whose only column has
`initialVisibility: false`, the empty raw map decodes to an empty
columnVisibility list — the fallback is the registry's defaults, and
those defaults are themselves empty — contradicting the claim that the
derived list is non-empty for every column registry. -/
theorem C5_empty_visibility_counterexample :
    parseColumnVisibility none colsAllHidden = [] := by decide

/-- C5 amended: for every registry that declares at least one
default-visible column, the derived columnVisibility list is non-empty
(the decoder falls back to the registry's `initialVisibility` defaults
when derivation retains nothing); and independently of that,
`useTableActions.setColumnVisibility` returns without committing whenever
hiding a column would leave zero visible columns. -/
theorem C5_visibility_floor {α : Type} (cols : List (ColumnDef α))
    (hvis : ∃ col ∈ cols, col.initialVisibility = true) :
    (∀ param, parseColumnVisibility param cols ≠ []) ∧
    (∀ (m : RawMap) (ks : QueryKeys) (c : String),
      newVisibleListTA m ks cols c false = [] →
      setColumnVisibilityTA m ks cols c false = ActionResult.noop) := by
  constructor
  · intro param h
    simp only [parseColumnVisibility] at h
    split at h
    · rename_i hlen
      rw [h] at hlen
      simp at hlen
    · obtain ⟨col, hmem, hini⟩ := hvis
      have : col.key ∈ defaultVisibleKeys cols := by
        unfold defaultVisibleKeys
        exact List.mem_map_of_mem _ (List.mem_filter.mpr ⟨hmem, hini⟩)
      rw [h] at this
      cases this
  · intro m ks c h
    unfold setColumnVisibilityTA
    rw [h]
    rfl

/-- C5 amended witness: the test registry decodes the junk columns value
to its non-empty defaults, and hiding the sole visible column of a
one-column registry is a no-op. -/
theorem C5_visibility_floor_witness :
    parseColumnVisibility (some "zzz") cols3 ≠ [] ∧
    setColumnVisibilityTA emptyMap ksDefault colsSingle "a" false
      = ActionResult.noop := by
  constructor
  · exact (C5_visibility_floor cols3 ⟨colId, by simp [cols3], rfl⟩).1
      (some "zzz")
  · exact (C5_visibility_floor colsSingle
      ⟨{ key := "a", sortable := false, initialVisibility := true,
         filter := none }, by simp [colsSingle], rfl⟩).2
      emptyMap ksDefault "a" (by decide)

/-! ### C6 -/

/-- The columns decoder as the specification words it: absent value means
no tokens, so the registry's default-visible columns are returned; a
present value is split on ",", only tokens naming a defined column are
retained in their given order, and an empty retained list again yields
the defaults. -/
def specColumnVisibility {α : Type} (param : Option String)
    (cols : List (ColumnDef α)) : List String :=
  match param with
  | none => defaultVisibleKeys cols
  | some s =>
    let kept := (splitOnComma s).filter (isDefinedKey cols)
    if kept = [] then defaultVisibleKeys cols else kept

/-- C6: the implemented columns decoder coincides with the
specification's description on every raw value, for any registry that
does not define a column with the empty-string key.  (The implementation
turns an absent value into "" and splits it, yielding the single token
""; the proviso keeps that token from surviving the filter, which is what
the claim's "absent value yields the defaults" silently assumes.) -/
theorem C6_visibility_decode {α : Type} (cols : List (ColumnDef α))
    (hnk : isDefinedKey cols "" = false) :
    ∀ param, parseColumnVisibility param cols = specColumnVisibility param cols := by
  intro param
  cases param with
  | none =>
    have h0 : splitOnComma "" = [""] := rfl
    simp only [parseColumnVisibility, specColumnVisibility, Option.getD]
    rw [h0]
    simp [List.filter_cons, hnk]
  | some s =>
    simp only [parseColumnVisibility, specColumnVisibility, Option.getD]
    by_cases hk : (splitOnComma s).filter (isDefinedKey cols) = []
    · simp [hk]
    · rw [if_pos (by simpa using List.length_pos.mpr hk), if_neg hk]

/-- C6 witness: the token list "id,zzz,name" keeps the defined keys in
caller order, through both the implementation and the spec modelling. -/
theorem C6_visibility_decode_witness :
    parseColumnVisibility (some "id,zzz,name") cols3
      = specColumnVisibility (some "id,zzz,name") cols3 :=
  C6_visibility_decode cols3 (by decide) (some "id,zzz,name")

/-! ### C7 -/

/-- Helper: an entry contributed by a column carries that column's key. -/
theorem filterEntryFor_key {α : Type} (m : RawMap) (fpfx : String)
    (col : ColumnDef α) (e : String × α)
    (h : filterEntryFor m fpfx col = some e) : e.1 = col.key := by
  unfold filterEntryFor at h
  split at h
  · simp at h
  · split at h
    · simp at h
    · split at h
      · injection h with h2
        rw [← h2]
      · simp at h
      · simp at h

/-- Helper: a column contributing nothing drops out of `parseFilters`. -/
theorem parseFilters_cons_none {α : Type} (m : RawMap) (fpfx : String)
    (col : ColumnDef α) (rest : List (ColumnDef α))
    (hent : filterEntryFor m fpfx col = none) :
    parseFilters m fpfx (col :: rest) = parseFilters m fpfx rest := by
  unfold parseFilters
  rw [List.filterMap_cons, hent]

/-- Helper: a column contributing an entry puts it in front. -/
theorem parseFilters_cons_some {α : Type} (m : RawMap) (fpfx : String)
    (col : ColumnDef α) (rest : List (ColumnDef α)) (e : String × α)
    (hent : filterEntryFor m fpfx col = some e) :
    parseFilters m fpfx (col :: rest) = e :: parseFilters m fpfx rest := by
  unfold parseFilters
  rw [List.filterMap_cons, hent]

/-- Helper: a key named by no registry column is absent from the decoded
filter mapping. -/
theorem lookup_parseFilters_of_not_mem {α : Type} (m : RawMap) (fpfx : String)
    (cols : List (ColumnDef α)) (c : String)
    (h : ∀ col ∈ cols, col.key ≠ c) :
    (parseFilters m fpfx cols).lookup c = none := by
  induction cols with
  | nil => rfl
  | cons col rest ih =>
    cases hent : filterEntryFor m fpfx col with
    | none =>
      rw [parseFilters_cons_none m fpfx col rest hent]
      exact ih (fun col2 hm => h col2 (List.mem_cons_of_mem _ hm))
    | some e =>
      obtain ⟨k, v0⟩ := e
      have hk : k = col.key := filterEntryFor_key m fpfx col (k, v0) hent
      have hbeq : (c == k) = false := by
        rw [hk]
        exact beq_eq_false_iff_ne.mpr
          (fun hx => h col (List.mem_cons_self _ _) hx.symm)
      rw [parseFilters_cons_some m fpfx col rest (k, v0) hent]
      simp only [List.lookup, hbeq]
      exact ih (fun col2 hm => h col2 (List.mem_cons_of_mem _ hm))

/-- C7: for a registry with distinct column keys and a column `c` that
carries filter codec `fd`, the decoded filter mapping binds `c` to `v`
exactly when the namespaced value is present and decodes to the non-null
`v`; when the value is absent, decodes to null, or decoding throws, `c`
is omitted entirely.  Each column's entry depends only on its own
namespaced value and codec, so one column's decode exception cannot
disturb the others (the caught exception merely skips that column). -/
theorem C7_filters_iff {α : Type} (cols : List (ColumnDef α)) (m : RawMap)
    (fpfx c : String) (fd : FilterDef α)
    (hnd : (cols.map (fun col => col.key)).Nodup)
    (hc : ∃ col ∈ cols, col.key = c ∧ col.filter = some fd) :
    ∀ v, ((parseFilters m fpfx cols).lookup c = some v ↔
      ∃ enc, m (fpfx ++ c) = some enc ∧
        fd.decodeFromUrl enc = .ok (some v)) := by
  revert hnd hc
  induction cols with
  | nil =>
    intro hnd hc
    obtain ⟨col, h0, _⟩ := hc
    simp at h0
  | cons col rest ih =>
    intro hnd hc
    intro v
    have hnd1 : col.key ∉ rest.map (fun col => col.key) :=
      (List.nodup_cons.mp hnd).1
    have hnd2 : (rest.map (fun col => col.key)).Nodup :=
      (List.nodup_cons.mp hnd).2
    obtain ⟨col2, hmem, hkey, hfil⟩ := hc
    rw [List.mem_cons] at hmem
    rcases hmem with rfl | hmem2
    · subst hkey
      cases hread : m (fpfx ++ col2.key) with
      | none =>
        have hent : filterEntryFor m fpfx col2 = none := by
          simp only [filterEntryFor, hfil, hread]
        rw [parseFilters_cons_none m fpfx col2 rest hent,
          lookup_parseFilters_of_not_mem m fpfx rest col2.key
            (fun col3 hm hx => hnd1 (hx ▸ List.mem_map_of_mem _ hm))]
        simp
      | some enc =>
        cases hdec : fd.decodeFromUrl enc with
        | error e0 =>
          have hent : filterEntryFor m fpfx col2 = none := by
            simp only [filterEntryFor, hfil, hread, hdec]
          rw [parseFilters_cons_none m fpfx col2 rest hent,
            lookup_parseFilters_of_not_mem m fpfx rest col2.key
              (fun col3 hm hx => hnd1 (hx ▸ List.mem_map_of_mem _ hm))]
          simp [hdec]
        | ok vo =>
          cases vo with
          | none =>
            have hent : filterEntryFor m fpfx col2 = none := by
              simp only [filterEntryFor, hfil, hread, hdec]
            rw [parseFilters_cons_none m fpfx col2 rest hent,
              lookup_parseFilters_of_not_mem m fpfx rest col2.key
                (fun col3 hm hx => hnd1 (hx ▸ List.mem_map_of_mem _ hm))]
            simp [hdec]
          | some v0 =>
            have hent : filterEntryFor m fpfx col2 = some (col2.key, v0) := by
              simp only [filterEntryFor, hfil, hread, hdec]
            rw [parseFilters_cons_some m fpfx col2 rest (col2.key, v0) hent]
            simp [List.lookup, hdec]
    · have hcrest : c ∈ rest.map (fun col => col.key) :=
        hkey ▸ List.mem_map_of_mem _ hmem2
      have hne : col.key ≠ c := fun hx => hnd1 (hx ▸ hcrest)
      cases hent : filterEntryFor m fpfx col with
      | none =>
        rw [parseFilters_cons_none m fpfx col rest hent]
        exact ih hnd2 ⟨col2, hmem2, hkey, hfil⟩ v
      | some e =>
        obtain ⟨k, v0⟩ := e
        have hk : k = col.key := filterEntryFor_key m fpfx col (k, v0) hent
        have hbeq : (c == k) = false := by
          rw [hk]
          exact beq_eq_false_iff_ne.mpr (fun hx => hne hx.symm)
        rw [parseFilters_cons_some m fpfx col rest (k, v0) hent]
        simp only [List.lookup, hbeq]
        exact ih hnd2 ⟨col2, hmem2, hkey, hfil⟩ v

/-- C7 witness: the name column's namespaced value decodes into the
filter mapping. -/
theorem C7_filters_iff_witness :
    (parseFilters (mapOf [("table_filter_name", "tanaka")]) "table_filter_"
      [colName]).lookup "name" = some "tanaka" :=
  (C7_filters_iff [colName] (mapOf [("table_filter_name", "tanaka")])
    "table_filter_" "name" fdString (by decide)
    ⟨colName, by simp, rfl, rfl⟩ "tanaka").mpr ⟨"tanaka", by decide, rfl⟩

/-! ### C8 -/

/-- C8: for `createFilterEncoderDecoder`, whenever the schema accepts a
value `x` (validation returns `x` itself, as valibot does for
non-transforming schemas) and the external JSON codec round-trips the
stringified value, encode succeeds with the JSON text and decode maps
that text back to `x`.  Decode is total by construction — the source
wraps parse-then-validate in try/catch — and returns null both when the
JSON parse throws and when validation throws. -/
theorem C8_codec_roundtrip {β : Type} (J : JsonCodec β) (sc : ValSchema β)
    (x : β) (hx : sc.vparse x = .ok x)
    (hj : J.parse (J.stringify x) = .ok x) :
    (createFilterEncoderDecoder J sc).1 x = .ok (J.stringify x) ∧
    (createFilterEncoderDecoder J sc).2 (J.stringify x) = some x ∧
    (∀ t, J.parse t = .error () →
      (createFilterEncoderDecoder J sc).2 t = none) ∧
    (∀ t p, J.parse t = .ok p → sc.vparse p = .error () →
      (createFilterEncoderDecoder J sc).2 t = none) := by
  refine ⟨?_, ?_, ?_, ?_⟩
  · simp [createFilterEncoderDecoder, hx, Except.map]
  · simp [createFilterEncoderDecoder, hj, hx, Except.bind]
  · intro t ht
    simp [createFilterEncoderDecoder, ht, Except.bind]
  · intro t p ht hp
    simp [createFilterEncoderDecoder, ht, hp, Except.bind]

/-- A concrete text codec over `Nat` for the C8 witness: unary text (a
stand-in for the external JSON library, satisfying the same round-trip
contract). -/
def natJson : JsonCodec Nat :=
  { stringify := fun n => String.mk (List.replicate n 'x')
    parse := fun s =>
      if s.toList.all (fun c => c == 'x') then .ok s.toList.length
      else .error () }

/-- A concrete validator for the C8 witness: accepts numbers up to 100
unchanged, rejects the rest. -/
def le100Schema : ValSchema Nat :=
  { vparse := fun n => if n ≤ 100 then .ok n else .error () }

/-- C8 witness: 42 round-trips through the schema-validated codec, and a
malformed text decodes to null. -/
theorem C8_codec_roundtrip_witness :
    (createFilterEncoderDecoder natJson le100Schema).2
      (natJson.stringify 42) = some 42 ∧
    (createFilterEncoderDecoder natJson le100Schema).2 "junk" = none := by
  have h := C8_codec_roundtrip natJson le100Schema 42 rfl rfl
  exact ⟨h.2.1, h.2.2.1 "junk" rfl⟩

/-! ### C9 -/

/-- Helper: committing a full sort through `setSortTA` decodes back to
that sort, provided the column is a defined sortable one. -/
theorem decodedSort_setSortTA_some {α : Type} (m : RawMap) (ks : QueryKeys)
    (cols : List (ColumnDef α)) (c : String) (o : SortOrder)
    (hks : ks.sortBy ≠ ks.sortOrder) (hcne : c ≠ "")
    (hsort : isSortableKey cols c = true) :
    decodedSort (setSortTA m ks (some c) (some o)) ks cols
      = (some c, some o) := by
  have hbne : (c != "") = true := by simp [hcne]
  unfold decodedSort
  rw [setSortTA_sortBy m ks (some c) (some o) hks,
    setSortTA_sortOrder m ks (some c) (some o)]
  have hsb : parseSortBy (some c) cols = some c := by
    simp [parseSortBy, hbne, hsort]
  have hso : parseSortOrder (some o.encode) = some o := by
    cases o <;> rfl
  rw [hsb]
  exact congrArg _ hso

/-- Helper: clearing the sort through `setSortTA` decodes back to the
unsorted state. -/
theorem decodedSort_setSortTA_none {α : Type} (m : RawMap) (ks : QueryKeys)
    (cols : List (ColumnDef α)) (hks : ks.sortBy ≠ ks.sortOrder) :
    decodedSort (setSortTA m ks none none) ks cols = (none, none) := by
  unfold decodedSort
  rw [setSortTA_sortBy m ks none none hks, setSortTA_sortOrder m ks none none]
  rfl

/-- C9: `useTableActions.toggleSort` cycles a sortable column c through
the three decoded sort states: from Unsorted (decoded sortBy null) it
commits Asc(c); from Asc(c) it commits Desc(c); from Desc(c) it clears
both keys, decoding to Unsorted; and from a state decoded as sorted on a
different column it commits Asc(c). -/
theorem C9_toggle_cycle {α : Type} (cols : List (ColumnDef α)) (ks : QueryKeys)
    (m : RawMap) (c : String) (hks : ks.sortBy ≠ ks.sortOrder)
    (hcne : c ≠ "") (hsort : isSortableKey cols c = true) :
    ((decodedSort m ks cols).1 = none →
      decodedSort (toggleSortTA m ks cols c) ks cols
        = (some c, some .asc)) ∧
    (decodedSort m ks cols = (some c, some .asc) →
      decodedSort (toggleSortTA m ks cols c) ks cols
        = (some c, some .desc)) ∧
    (decodedSort m ks cols = (some c, some .desc) →
      decodedSort (toggleSortTA m ks cols c) ks cols = (none, none)) ∧
    (∀ c2, (decodedSort m ks cols).1 = some c2 → c2 ≠ c →
      decodedSort (toggleSortTA m ks cols c) ks cols
        = (some c, some .asc)) := by
  refine ⟨?_, ?_, ?_, ?_⟩
  · intro h
    have hcond : ¬ ((decodedSort m ks cols).1 = some c) := by
      rw [h]
      simp
    simp only [toggleSortTA]
    rw [if_neg hcond]
    exact decodedSort_setSortTA_some m ks cols c .asc hks hcne hsort
  · intro h
    have h1 : (decodedSort m ks cols).1 = some c := by rw [h]
    have h2 : (decodedSort m ks cols).2 = some SortOrder.asc := by rw [h]
    simp only [toggleSortTA]
    rw [if_pos h1, if_pos h2]
    exact decodedSort_setSortTA_some m ks cols c .desc hks hcne hsort
  · intro h
    have h1 : (decodedSort m ks cols).1 = some c := by rw [h]
    have h2 : ¬ ((decodedSort m ks cols).2 = some SortOrder.asc) := by
      rw [h]
      simp
    simp only [toggleSortTA]
    rw [if_pos h1, if_neg h2]
    exact decodedSort_setSortTA_none m ks cols hks
  · intro c2 h hne
    have hcond : ¬ ((decodedSort m ks cols).1 = some c) := by
      rw [h]
      simp [hne]
    simp only [toggleSortTA]
    rw [if_neg hcond]
    exact decodedSort_setSortTA_some m ks cols c .asc hks hcne hsort

/-- C9 witness: from the empty map (Unsorted), toggling the sortable id
column commits a map decoding to Asc(id). -/
theorem C9_toggle_cycle_witness :
    decodedSort (toggleSortTA emptyMap ksDefault cols3 "id") ksDefault cols3
      = (some "id", some .asc) :=
  (C9_toggle_cycle cols3 ksDefault emptyMap "id" (by decide) (by decide)
    (by decide)).1 (by decide)

/-! ### C10 -/

/-- C10: neither side of the visibility codec deduplicates.  Writer side:
when c is already in the decoded visible list, showing c again through
`useTableActions.setColumnVisibility` appends it once more, so the action
commits the comma-join of a list counting c at least twice.  Reader side:
a columns value whose token list repeats the defined key c decodes to a
columnVisibility list repeating c just as often. -/
theorem C10_no_dedup {α : Type} (cols : List (ColumnDef α)) (ks : QueryKeys)
    (m : RawMap) (c : String) (hdef : isDefinedKey cols c = true)
    (hmem : c ∈ parseColumnVisibility (m ks.columnVisibility) cols) :
    (2 ≤ (newVisibleListTA m ks cols c true).count c ∧
      setColumnVisibilityTA m ks cols c true
        = .commit (qset m ks.columnVisibility
            (String.intercalate "," (newVisibleListTA m ks cols c true)))) ∧
    (∀ s, 2 ≤ ((splitOnComma s).count c) →
      2 ≤ ((parseColumnVisibility (some s) cols).count c)) := by
  have h1 : newVisibleListTA m ks cols c true
      = parseColumnVisibility (m ks.columnVisibility) cols ++ [c] := by
    simp [newVisibleListTA]
  refine ⟨⟨?_, ?_⟩, ?_⟩
  · rw [h1, List.count_append]
    have hpos := List.count_pos_iff.mpr hmem
    have hone : ([c] : List String).count c = [].count c + 1 :=
      List.count_cons_self c []
    simp only [List.count_nil] at hone
    omega
  · have hne : ¬ ((newVisibleListTA m ks cols c true).length = 0) := by
      rw [h1]
      simp
    simp only [setColumnVisibilityTA]
    rw [if_neg hne]
    simp [updateQueryParams]
  · intro s hs
    have hkept : ((splitOnComma s).filter (isDefinedKey cols)).count c
        = (splitOnComma s).count c := List.count_filter hdef
    have hmem2 : c ∈ (splitOnComma s).filter (isDefinedKey cols) := by
      apply List.count_pos_iff.mp
      omega
    have hlen : 0 < ((splitOnComma s).filter (isDefinedKey cols)).length :=
      List.length_pos.mpr (List.ne_nil_of_mem hmem2)
    simp only [parseColumnVisibility, Option.getD]
    rw [if_pos hlen, hkept]
    exact hs

/-- C10 witness: with "id" already visible, showing it again commits a
list counting it twice, and the columns value "id,id,name" decodes with
"id" twice. -/
theorem C10_no_dedup_witness :
    2 ≤ (newVisibleListTA (mapOf [(ksDefault.columnVisibility, "id,name")])
      ksDefault cols3 "id" true).count "id" ∧
    2 ≤ ((parseColumnVisibility (some "id,id,name") cols3).count "id") := by
  have h := C10_no_dedup cols3 ksDefault
    (mapOf [(ksDefault.columnVisibility, "id,name")]) "id" (by decide)
    (by decide)
  exact ⟨h.1.1, h.2 "id,id,name" (by decide)⟩
